import Mathlib

/-!
Verification of a WebUSB fastboot client.

The development shallowly embeds the protocol core of the client:

* `readResponse` — the receive-side loop assembling status-prefixed 64-byte
  packets into a structured response;
* `runCommand` — command length validation and transmission;
* `sendRawPayload` — chunked payload streaming with progress reporting;
* `scanEndpoints` — bulk-endpoint discovery over an interface alternate;
* `downloadNegotiation` — the `download:XXXXXXXX` size handshake of the
  caller.

Packets arriving on the IN endpoint are modelled as a list of already
decoded strings; byte buffers are lists of naturals; the outcome of an
operation is an explicit inductive value.
-/

set_option autoImplicit false

/-- Fixed chunk size for bulk payload transfers (`BULK_TRANSFER_SIZE`). -/
def BULK_TRANSFER_SIZE : Nat := 16384

/-- The structured command response built by `readResponse`: accumulated
message text and the optional data size announced by a `DATA` packet,
mirroring the `returnData` object of the source. -/
structure Response where
  text : String
  dataSize : Option String
deriving DecidableEq, Repr

/-- Outcome of `readResponse` on a stream of decoded packets: success with
the built response and the packets left unread, failure with the raw status
and message (a thrown `FastbootError`), or exhaustion of the stream while a
packet was still awaited. -/
inductive ReadResult where
  | ok : Response → List String → ReadResult
  | fail : String → String → ReadResult
  | noPacket : ReadResult
deriving DecidableEq, Repr

/-- First four characters of a decoded packet, `response.substring(0, 4)`. -/
def respStatusOf (response : String) : String :=
  String.mk (response.data.take 4)

/-- Remainder of a decoded packet after the status, `response.substring(4)`. -/
def respMessageOf (response : String) : String :=
  String.mk (response.data.drop 4)

/-- The `do … while (respStatus === "INFO")` loop of
`FastbootDevice.readResponse`, with the mutable `returnData.text` and
`returnData.dataSize` threaded explicitly through the recursion. -/
def readResponseAux : List String → String → Option String → ReadResult
  | [], _, _ => ReadResult.noPacket
  | response :: rest, text, dataSize =>
    let respStatus := respStatusOf response
    let respMessage := respMessageOf response
    if respStatus = "OKAY" then
      ReadResult.ok ⟨text ++ respMessage, dataSize⟩ rest
    else if respStatus = "INFO" then
      readResponseAux rest (text ++ respMessage ++ "\n") dataSize
    else if respStatus = "DATA" then
      ReadResult.ok ⟨text, some respMessage⟩ rest
    else
      ReadResult.fail respStatus respMessage

/-- `FastbootDevice.readResponse`: every call starts from the fresh
accumulation state `text = ""`, `dataSize = null`. -/
def readResponse (packets : List String) : ReadResult :=
  readResponseAux packets "" none

/-- Text accumulated after a run of `INFO` packets, mirroring the
`returnData.text += respMessage + "\n"` updates of the loop. -/
def accumText : String → List String → String
  | text, [] => text
  | text, q :: qs => accumText (text ++ respMessageOf q ++ "\n") qs

lemma readResponseAux_ok_decomp :
    ∀ (packets : List String) (text : String) (ds : Option String)
      (r : Response) (rem : List String),
      readResponseAux packets text ds = ReadResult.ok r rem →
      ∃ infos p, packets = infos ++ p :: rem ∧
        (∀ q ∈ infos, respStatusOf q = "INFO") ∧
        ((respStatusOf p = "OKAY" ∧
            r = ⟨accumText text infos ++ respMessageOf p, ds⟩) ∨
         (respStatusOf p = "DATA" ∧
            r = ⟨accumText text infos, some (respMessageOf p)⟩)) := by
  intro packets
  induction packets with
  | nil => intro text ds r rem h; simp [readResponseAux] at h
  | cons q qs ih =>
    intro text ds r rem h
    simp only [readResponseAux] at h
    by_cases hOK : respStatusOf q = "OKAY"
    · rw [if_pos hOK, ReadResult.ok.injEq] at h
      obtain ⟨hr, hrem⟩ := h
      refine ⟨[], q, by simp [hrem], by simp, Or.inl ⟨hOK, ?_⟩⟩
      simpa [accumText] using hr.symm
    · rw [if_neg hOK] at h
      by_cases hINFO : respStatusOf q = "INFO"
      · rw [if_pos hINFO] at h
        obtain ⟨infos, p, hsplit, hinfos, hcase⟩ := ih _ _ _ _ h
        refine ⟨q :: infos, p, by simp [hsplit], ?_, ?_⟩
        · intro x hx
          rcases List.mem_cons.mp hx with hx | hx
          · exact hx ▸ hINFO
          · exact hinfos x hx
        · simpa [accumText] using hcase
      · rw [if_neg hINFO] at h
        by_cases hDATA : respStatusOf q = "DATA"
        · rw [if_pos hDATA, ReadResult.ok.injEq] at h
          obtain ⟨hr, hrem⟩ := h
          refine ⟨[], q, by simp [hrem], by simp, Or.inr ⟨hDATA, ?_⟩⟩
          simpa [accumText] using hr.symm
        · rw [if_neg hDATA] at h
          cases h

lemma readResponseAux_ok_build :
    ∀ (infos : List String) (p : String) (rest : List String)
      (text : String) (ds : Option String),
      (∀ q ∈ infos, respStatusOf q = "INFO") →
      readResponseAux (infos ++ p :: rest) text ds =
        (if respStatusOf p = "OKAY" then
          ReadResult.ok ⟨accumText text infos ++ respMessageOf p, ds⟩ rest
        else if respStatusOf p = "INFO" then
          readResponseAux rest (accumText text infos ++ respMessageOf p ++ "\n") ds
        else if respStatusOf p = "DATA" then
          ReadResult.ok ⟨accumText text infos, some (respMessageOf p)⟩ rest
        else
          ReadResult.fail (respStatusOf p) (respMessageOf p)) := by
  intro infos
  induction infos with
  | nil =>
    intro p rest text ds _
    simp [readResponseAux, accumText]
  | cons q qs ih =>
    intro p rest text ds hinfos
    have hq : respStatusOf q = "INFO" := hinfos q (List.mem_cons_self q qs)
    have hqs : ∀ x ∈ qs, respStatusOf x = "INFO" := fun x hx =>
      hinfos x (List.mem_cons_of_mem q hx)
    simp only [List.cons_append, readResponseAux, List.append_eq]
    rw [hq, if_neg (show ¬("INFO" : String) = "OKAY" by decide)]
    rw [ih p rest (text ++ respMessageOf q ++ "\n") ds hqs]
    rfl

/-- Claim C1: `readResponse` appends an `OKAY` packet's message to the
accumulated text and terminates the loop, appends an `INFO` packet's
message followed by a line break and continues reading, and on the packet
sequence `["INFOhello", "INFOworld", "OKAYdone"]` returns the response
with text `"hello\nworld\ndone"` and no data size. -/
theorem c1_okay_info_accumulation :
    (∀ (p : String) (rest : List String) (text : String) (ds : Option String),
        respStatusOf p = "OKAY" →
        readResponseAux (p :: rest) text ds =
          ReadResult.ok ⟨text ++ respMessageOf p, ds⟩ rest) ∧
    (∀ (p : String) (rest : List String) (text : String) (ds : Option String),
        respStatusOf p = "INFO" →
        readResponseAux (p :: rest) text ds =
          readResponseAux rest (text ++ respMessageOf p ++ "\n") ds) ∧
    readResponse ["INFOhello", "INFOworld", "OKAYdone"] =
      ReadResult.ok ⟨"hello\nworld\ndone", none⟩ [] := by
  refine ⟨?_, ?_, by decide⟩
  · intro p rest text ds h
    simp only [readResponseAux]
    rw [h, if_pos rfl]
  · intro p rest text ds h
    simp only [readResponseAux]
    rw [h, if_neg (show ¬("INFO" : String) = "OKAY" by decide), if_pos rfl]

/-- Witness for C1 at concrete packets: one `OKAY` step and one `INFO`
step, evaluated on explicit inputs. -/
theorem c1_okay_info_accumulation_witness :
    readResponseAux ["OKAYdone"] "" none =
      ReadResult.ok ⟨"" ++ respMessageOf "OKAYdone", none⟩ [] ∧
    readResponseAux ["INFOhello", "OKAYdone"] "" none =
      readResponseAux ["OKAYdone"] ("" ++ respMessageOf "INFOhello" ++ "\n") none :=
  ⟨c1_okay_info_accumulation.1 "OKAYdone" [] "" none (by decide),
   c1_okay_info_accumulation.2.1 "INFOhello" ["OKAYdone"] "" none (by decide)⟩

/-- Claim C2: a `DATA` packet sets `dataSize` to its message verbatim and
terminates the loop immediately with the accumulated text unchanged; on
any stream, a successful response either has no data size (`OKAY`
termination) or its data size was set exactly once, by the single
terminating `DATA` packet, which contributed nothing to the text; the
packet `["DATA0000002a"]` yields data size `"0000002a"` and empty text. -/
theorem c2_data_terminates_once :
    (∀ (p : String) (rest : List String) (text : String) (ds : Option String),
        respStatusOf p = "DATA" →
        readResponseAux (p :: rest) text ds =
          ReadResult.ok ⟨text, some (respMessageOf p)⟩ rest) ∧
    (∀ (packets rem : List String) (r : Response),
        readResponse packets = ReadResult.ok r rem →
        r.dataSize = none ∨
          ∃ infos p, packets = infos ++ p :: rem ∧
            (∀ q ∈ infos, respStatusOf q = "INFO") ∧
            respStatusOf p = "DATA" ∧
            r.dataSize = some (respMessageOf p) ∧
            r.text = accumText "" infos) ∧
    readResponse ["DATA0000002a"] = ReadResult.ok ⟨"", some "0000002a"⟩ [] := by
  refine ⟨?_, ?_, by decide⟩
  · intro p rest text ds h
    simp only [readResponseAux]
    rw [h, if_neg (show ¬("DATA" : String) = "OKAY" by decide),
      if_neg (show ¬("DATA" : String) = "INFO" by decide), if_pos rfl]
  · intro packets rem r h
    obtain ⟨infos, p, hsplit, hinfos, hcase⟩ :=
      readResponseAux_ok_decomp packets "" none r rem h
    rcases hcase with ⟨_, hr⟩ | ⟨hDATA, hr⟩
    · exact Or.inl (by rw [hr])
    · exact Or.inr ⟨infos, p, hsplit, hinfos, hDATA, by rw [hr], by rw [hr]⟩

/-- Witness for C2 at a concrete `DATA` packet and a concrete successful
stream. -/
theorem c2_data_terminates_once_witness :
    readResponseAux ["DATAabcd", "extra"] "t" none =
      ReadResult.ok ⟨"t", some (respMessageOf "DATAabcd")⟩ ["extra"] ∧
    (Response.mk "" (some "0000002a")).dataSize = none ∨
      ∃ infos p, ["DATA0000002a"] = infos ++ p :: ([] : List String) ∧
        (∀ q ∈ infos, respStatusOf q = "INFO") ∧
        respStatusOf p = "DATA" ∧
        (Response.mk "" (some "0000002a")).dataSize = some (respMessageOf p) ∧
        (Response.mk "" (some "0000002a")).text = accumText "" infos :=
  Or.inr (Or.elim
    (c2_data_terminates_once.2.1 ["DATA0000002a"] [] ⟨"", some "0000002a"⟩ (by decide))
    (fun hnone => absurd hnone (by decide))
    (fun hex => hex))

/-- Claim C3: a packet whose status is neither `OKAY`, `INFO` nor `DATA`
makes the loop fail immediately with a `FastbootError` carrying the raw
status and message and no partial response; on the success path the call
consumed exactly an `INFO` prefix ended by an `OKAY` or `DATA` packet,
and the response is determined by those consumed packets alone, so a
fresh call on the remaining stream never reprocesses them; the packet
`["FAILbad state"]` fails with status `"FAIL"` and message `"bad state"`. -/
theorem c3_fail_atomicity :
    (∀ (p : String) (rest : List String) (text : String) (ds : Option String),
        respStatusOf p ≠ "OKAY" → respStatusOf p ≠ "INFO" →
        respStatusOf p ≠ "DATA" →
        readResponseAux (p :: rest) text ds =
          ReadResult.fail (respStatusOf p) (respMessageOf p)) ∧
    (∀ (packets rem : List String) (r : Response),
        readResponse packets = ReadResult.ok r rem →
        ∃ consumed p, packets = consumed ++ rem ∧
          consumed.getLast? = some p ∧
          (respStatusOf p = "OKAY" ∨ respStatusOf p = "DATA") ∧
          ∀ rem₂, readResponse (consumed ++ rem₂) = ReadResult.ok r rem₂) ∧
    readResponse ["FAILbad state"] = ReadResult.fail "FAIL" "bad state" := by
  refine ⟨?_, ?_, by decide⟩
  · intro p rest text ds hOK hINFO hDATA
    simp only [readResponseAux]
    rw [if_neg hOK, if_neg hINFO, if_neg hDATA]
  · intro packets rem r h
    obtain ⟨infos, p, hsplit, hinfos, hcase⟩ :=
      readResponseAux_ok_decomp packets "" none r rem h
    have hterm : respStatusOf p = "OKAY" ∨ respStatusOf p = "DATA" := by
      rcases hcase with ⟨hs, _⟩ | ⟨hs, _⟩
      · exact Or.inl hs
      · exact Or.inr hs
    refine ⟨infos ++ [p], p, by simp [hsplit], by simp, hterm, ?_⟩
    intro rem₂
    have hbuild := readResponseAux_ok_build infos p rem₂ "" none hinfos
    rw [show (infos ++ [p]) ++ rem₂ = infos ++ p :: rem₂ by simp]
    unfold readResponse
    rw [hbuild]
    rcases hcase with ⟨hs, hr⟩ | ⟨hs, hr⟩
    · rw [if_pos hs, hr]
    · rw [if_neg (by rw [hs]; decide), if_neg (by rw [hs]; decide), if_pos hs, hr]

/-- Witness for C3: a concrete garbage packet fails with its raw status,
and the concrete success stream `["INFOhello", "OKAYdone", "leftover"]`
decomposes into consumed packets plus remainder. -/
theorem c3_fail_atomicity_witness :
    readResponseAux ["XYZ!oops"] "" none =
      ReadResult.fail (respStatusOf "XYZ!oops") (respMessageOf "XYZ!oops") ∧
    ∃ consumed p, ["INFOhello", "OKAYdone", "leftover"] = consumed ++ ["leftover"] ∧
      consumed.getLast? = some p ∧
      (respStatusOf p = "OKAY" ∨ respStatusOf p = "DATA") ∧
      ∀ rem₂, readResponse (consumed ++ rem₂) =
        ReadResult.ok ⟨"hello\ndone", none⟩ rem₂ :=
  ⟨c3_fail_atomicity.1 "XYZ!oops" [] "" none (by decide) (by decide) (by decide),
   c3_fail_atomicity.2.1 ["INFOhello", "OKAYdone", "leftover"] ["leftover"]
     ⟨"hello\ndone", none⟩ (by decide)⟩

/-- One observable event on the send side: a `onProgress` callback
invocation or a bulk-OUT transfer of one chunk. -/
inductive UsbEvent where
  | progress : ℚ → UsbEvent
  | transfer : List Nat → UsbEvent
deriving DecidableEq, Repr

/-- The `while (remainingBytes > 0)` loop of
`FastbootDevice.sendRawPayload`.  `buffer` is the immutable payload,
`failAt` the index of the bulk-OUT transfer the transport rejects (if
any), `i` the chunk counter and `remainingBytes` the loop variable.  The
fuel argument bounds the iteration count; `none` marks fuel exhaustion
(the source loop would not have terminated from such a state).  On a
transport failure the loop stops after the already-emitted events and
the error propagates (`false`); otherwise the loop ends with the
unconditional `onProgress(1.0)` (`true`). -/
def sendLoop (buffer : List Nat) (failAt : Option Nat) :
    Nat → Nat → Nat → Option (List UsbEvent × Bool)
  | 0, _, _ => none
  | fuel + 1, i, remainingBytes =>
    if 0 < remainingBytes then
      let chunk := (buffer.drop (i * BULK_TRANSFER_SIZE)).take BULK_TRANSFER_SIZE
      let p : ℚ :=
        ((buffer.length - remainingBytes : ℕ) : ℚ) / (buffer.length : ℚ)
      if failAt = some i then some ([UsbEvent.progress p], false)
      else
        match sendLoop buffer failAt fuel (i + 1) (remainingBytes - chunk.length) with
        | none => none
        | some (evs, ok) =>
          some (UsbEvent.progress p :: UsbEvent.transfer chunk :: evs, ok)
    else some ([UsbEvent.progress 1], true)

/-- `FastbootDevice.sendRawPayload buffer onProgress`, started with
`i = 0` and `remainingBytes = buffer.byteLength` as in the source. -/
def sendRawPayload (buffer : List Nat) (failAt : Option Nat) :
    Option (List UsbEvent × Bool) :=
  sendLoop buffer failAt (buffer.length + 1) 0 buffer.length

/-- Fuelled splitting of a list into consecutive `BULK_TRANSFER_SIZE`
windows. -/
def chunkedGo : Nat → List Nat → List (List Nat)
  | 0, _ => []
  | fuel + 1, l =>
    if l = [] then []
    else l.take BULK_TRANSFER_SIZE :: chunkedGo fuel (l.drop BULK_TRANSFER_SIZE)

/-- The consecutive chunks of a buffer, in transmission order. -/
def chunked (l : List Nat) : List (List Nat) :=
  chunkedGo l.length l

/-- The exact event sequence of one `sendRawPayload` call, described
chunk by chunk: before each transfer a progress report of
`sent / len`, after the last chunk the unconditional `progress 1`; a
transfer failing at index `failAt` ends the sequence with `false`. -/
def traceGo (len : Nat) (failAt : Option Nat) :
    Nat → Nat → List (List Nat) → List UsbEvent × Bool
  | _, _, [] => ([UsbEvent.progress 1], true)
  | i, sent, c :: cs =>
    if failAt = some i then
      ([UsbEvent.progress ((sent : ℚ) / (len : ℚ))], false)
    else
      let r := traceGo len failAt (i + 1) (sent + c.length) cs
      (UsbEvent.progress ((sent : ℚ) / (len : ℚ)) :: UsbEvent.transfer c :: r.1,
        r.2)

/-- The chunks transmitted in an event sequence, in order. -/
def transfersOf (evs : List UsbEvent) : List (List Nat) :=
  evs.filterMap fun e =>
    match e with
    | UsbEvent.transfer c => some c
    | _ => none

/-- The progress values reported in an event sequence, in order. -/
def progressOf (evs : List UsbEvent) : List ℚ :=
  evs.filterMap fun e =>
    match e with
    | UsbEvent.progress q => some q
    | _ => none

lemma chunkedGo_congr :
    ∀ (f g : Nat) (l : List Nat), l.length ≤ f → l.length ≤ g →
      chunkedGo f l = chunkedGo g l := by
  intro f
  induction f with
  | zero =>
    intro g l hf _
    have : l = [] := List.eq_nil_of_length_eq_zero (Nat.le_zero.mp hf)
    subst this
    cases g <;> simp [chunkedGo]
  | succ f ih =>
    intro g l hf hg
    cases g with
    | zero =>
      have : l = [] := List.eq_nil_of_length_eq_zero (Nat.le_zero.mp hg)
      subst this
      simp [chunkedGo]
    | succ g =>
      by_cases hl : l = []
      · subst hl; simp [chunkedGo]
      · have hlen : 0 < l.length := List.length_pos.mpr hl
        have hdrop : (l.drop BULK_TRANSFER_SIZE).length ≤ f := by
          rw [List.length_drop]
          have : (0 : Nat) < BULK_TRANSFER_SIZE := by decide
          omega
        have hdrop' : (l.drop BULK_TRANSFER_SIZE).length ≤ g := by
          rw [List.length_drop]
          have : (0 : Nat) < BULK_TRANSFER_SIZE := by decide
          omega
        simp only [chunkedGo, if_neg hl]
        rw [ih g (l.drop BULK_TRANSFER_SIZE) hdrop hdrop']

lemma chunked_nil : chunked [] = [] := rfl

lemma chunked_cons (l : List Nat) (h : l ≠ []) :
    chunked l = l.take BULK_TRANSFER_SIZE :: chunked (l.drop BULK_TRANSFER_SIZE) := by
  have hlen : 0 < l.length := List.length_pos.mpr h
  obtain ⟨n, hn⟩ : ∃ n, l.length = n + 1 := ⟨l.length - 1, by omega⟩
  unfold chunked
  rw [hn]
  simp only [chunkedGo, if_neg h]
  congr 1
  apply chunkedGo_congr
  · rw [List.length_drop]
    have : (0 : Nat) < BULK_TRANSFER_SIZE := by decide
    omega
  · exact Nat.le_refl _

lemma chunked_flatten : ∀ l : List Nat, (chunked l).flatten = l := by
  have aux : ∀ (fuel : Nat) (l : List Nat), l.length ≤ fuel →
      (chunkedGo fuel l).flatten = l := by
    intro fuel
    induction fuel with
    | zero =>
      intro l h
      have : l = [] := List.eq_nil_of_length_eq_zero (Nat.le_zero.mp h)
      subst this; simp [chunkedGo]
    | succ fuel ih =>
      intro l h
      by_cases hl : l = []
      · subst hl; simp [chunkedGo]
      · have hlen : 0 < l.length := List.length_pos.mpr hl
        have hdrop : (l.drop BULK_TRANSFER_SIZE).length ≤ fuel := by
          rw [List.length_drop]
          have : (0 : Nat) < BULK_TRANSFER_SIZE := by decide
          omega
        simp only [chunkedGo, if_neg hl, List.flatten_cons, ih _ hdrop]
        exact List.take_append_drop _ l
  intro l
  exact aux l.length l (Nat.le_refl _)

lemma chunked_mem (l c : List Nat) (hc : c ∈ chunked l) :
    0 < c.length ∧ c.length ≤ BULK_TRANSFER_SIZE := by
  have aux : ∀ (fuel : Nat) (l' c' : List Nat), c' ∈ chunkedGo fuel l' →
      0 < c'.length ∧ c'.length ≤ BULK_TRANSFER_SIZE := by
    intro fuel
    induction fuel with
    | zero => intro l' c' h; simp [chunkedGo] at h
    | succ fuel ih =>
      intro l' c' h
      by_cases hl : l' = []
      · subst hl; simp [chunkedGo] at h
      · simp only [chunkedGo, if_neg hl, List.mem_cons] at h
        rcases h with h | h
        · subst h
          constructor
          · rw [List.length_take]
            have h1 : 0 < l'.length := List.length_pos.mpr hl
            have h2 : (0 : Nat) < BULK_TRANSFER_SIZE := by decide
            omega
          · rw [List.length_take]; omega
        · exact ih _ _ h
  exact aux l.length l c hc

lemma sendLoop_eq_traceGo (buffer : List Nat) (failAt : Option Nat) :
    ∀ (fuel i remaining : Nat),
      remaining = buffer.length - i * BULK_TRANSFER_SIZE → remaining < fuel →
      sendLoop buffer failAt fuel i remaining =
        some (traceGo buffer.length failAt i (buffer.length - remaining)
          (chunked (buffer.drop (i * BULK_TRANSFER_SIZE)))) := by
  intro fuel
  induction fuel with
  | zero => intro i remaining _ h; exact absurd h (Nat.not_lt_zero _)
  | succ fuel ih =>
    intro i remaining hrem hfuel
    have hC : (0 : Nat) < BULK_TRANSFER_SIZE := by decide
    by_cases hpos : 0 < remaining
    · have hsuf_len : (buffer.drop (i * BULK_TRANSFER_SIZE)).length = remaining := by
        rw [List.length_drop]; omega
      have hsuf_ne : buffer.drop (i * BULK_TRANSFER_SIZE) ≠ [] := by
        intro hnil; rw [hnil] at hsuf_len; simp at hsuf_len; omega
      have hchunk := chunked_cons _ hsuf_ne
      have hchunk_len :
          ((buffer.drop (i * BULK_TRANSFER_SIZE)).take BULK_TRANSFER_SIZE).length
            = min BULK_TRANSFER_SIZE remaining := by
        rw [List.length_take, hsuf_len]
      have hmul : (i + 1) * BULK_TRANSFER_SIZE
          = i * BULK_TRANSFER_SIZE + BULK_TRANSFER_SIZE := by ring
      have hdropdrop : (buffer.drop (i * BULK_TRANSFER_SIZE)).drop BULK_TRANSFER_SIZE
          = buffer.drop ((i + 1) * BULK_TRANSFER_SIZE) := by
        rw [List.drop_drop, hmul, Nat.add_comm]
      have hrem_le : remaining ≤ buffer.length := by omega
      by_cases hfail : failAt = some i
      · simp only [sendLoop, if_pos hpos, if_pos hfail]
        rw [hchunk]
        simp only [traceGo, if_pos hfail]
      · simp only [sendLoop, if_pos hpos, if_neg hfail]
        have hrec_rem : remaining
              - ((buffer.drop (i * BULK_TRANSFER_SIZE)).take BULK_TRANSFER_SIZE).length
            = buffer.length - (i + 1) * BULK_TRANSFER_SIZE := by
          rw [hchunk_len, hmul]; omega
        have hrec_fuel : remaining
              - ((buffer.drop (i * BULK_TRANSFER_SIZE)).take BULK_TRANSFER_SIZE).length
            < fuel := by
          rw [hchunk_len]; omega
        rw [ih (i + 1) _ hrec_rem hrec_fuel]
        have hsent : buffer.length
              - (remaining
                - ((buffer.drop (i * BULK_TRANSFER_SIZE)).take BULK_TRANSFER_SIZE).length)
            = (buffer.length - remaining)
              + ((buffer.drop (i * BULK_TRANSFER_SIZE)).take BULK_TRANSFER_SIZE).length := by
          rw [hchunk_len]; omega
        rw [hchunk]
        simp only [traceGo, if_neg hfail]
        rw [hsent, hdropdrop]
    · have h0 : remaining = 0 := by omega
      subst h0
      have hdrop : buffer.drop (i * BULK_TRANSFER_SIZE) = [] := by
        apply List.eq_nil_of_length_eq_zero; rw [List.length_drop]; omega
      simp only [sendLoop, if_neg (by omega : ¬ (0 : Nat) < 0)]
      rw [hdrop, chunked_nil]
      simp [traceGo]

lemma sendRawPayload_eq (buffer : List Nat) (failAt : Option Nat) :
    sendRawPayload buffer failAt =
      some (traceGo buffer.length failAt 0 0 (chunked buffer)) := by
  have h := sendLoop_eq_traceGo buffer failAt (buffer.length + 1) 0 buffer.length
    (by simp) (by omega)
  simpa [sendRawPayload, Nat.sub_self] using h

lemma traceGo_none_snd (len : Nat) :
    ∀ (cs : List (List Nat)) (i sent : Nat),
      (traceGo len none i sent cs).2 = true := by
  intro cs
  induction cs with
  | nil => intro i sent; rfl
  | cons c cs ih =>
    intro i sent
    simp only [traceGo, if_neg (by simp : ¬ (none : Option Nat) = some i)]
    exact ih (i + 1) (sent + c.length)

lemma traceGo_none_transfers (len : Nat) :
    ∀ (cs : List (List Nat)) (i sent : Nat),
      transfersOf (traceGo len none i sent cs).1 = cs := by
  intro cs
  induction cs with
  | nil => intro i sent; rfl
  | cons c cs ih =>
    intro i sent
    simp only [traceGo, if_neg (by simp : ¬ (none : Option Nat) = some i)]
    simp only [transfersOf, List.filterMap_cons]
    exact congrArg (c :: ·) (ih (i + 1) (sent + c.length))

/-- The progress values reported by a complete send, chunk by chunk. -/
def progList (len : Nat) : Nat → List (List Nat) → List ℚ
  | _, [] => [1]
  | sent, c :: cs => ((sent : ℚ) / (len : ℚ)) :: progList len (sent + c.length) cs

lemma traceGo_none_progress (len : Nat) :
    ∀ (cs : List (List Nat)) (i sent : Nat),
      progressOf (traceGo len none i sent cs).1 = progList len sent cs := by
  intro cs
  induction cs with
  | nil => intro i sent; rfl
  | cons c cs ih =>
    intro i sent
    simp only [traceGo, if_neg (by simp : ¬ (none : Option Nat) = some i)]
    simp only [progressOf, List.filterMap_cons, progList]
    exact congrArg (_ :: ·) (ih (i + 1) (sent + c.length))

lemma div_cast_nonneg (a l : Nat) : (0 : ℚ) ≤ (a : ℚ) / (l : ℚ) := by
  positivity

lemma div_cast_mono (l a b : Nat) (h : a ≤ b) :
    (a : ℚ) / (l : ℚ) ≤ (b : ℚ) / (l : ℚ) := by
  rcases Nat.eq_zero_or_pos l with h0 | hp
  · subst h0; simp
  · exact (div_le_div_iff_of_pos_right (by exact_mod_cast hp)).mpr (by exact_mod_cast h)

lemma div_cast_le_one (l a : Nat) (h : a ≤ l) : (a : ℚ) / (l : ℚ) ≤ 1 := by
  rcases Nat.eq_zero_or_pos l with h0 | hp
  · subst h0
    have : a = 0 := by omega
    subst this; simp
  · rw [div_le_one (by exact_mod_cast hp)]
    exact_mod_cast h

lemma div_cast_lt_one (l a : Nat) (h : a < l) : (a : ℚ) / (l : ℚ) < 1 := by
  have hp : 0 < l := by omega
  rw [div_lt_one (by exact_mod_cast hp)]
  exact_mod_cast h

lemma progList_bounds (len : Nat) :
    ∀ (cs : List (List Nat)) (sent : Nat),
      sent + (cs.map List.length).sum ≤ len →
      ∀ q ∈ progList len sent cs, 0 ≤ q ∧ q ≤ 1 := by
  intro cs
  induction cs with
  | nil =>
    intro sent _ q hq
    simp only [progList, List.mem_singleton] at hq
    subst hq; norm_num
  | cons c cs ih =>
    intro sent hsum q hq
    simp only [List.map_cons, List.sum_cons] at hsum
    simp only [progList, List.mem_cons] at hq
    rcases hq with hq | hq
    · subst hq
      exact ⟨div_cast_nonneg _ _, div_cast_le_one _ _ (by omega)⟩
    · exact ih (sent + c.length) (by omega) q hq

lemma progList_chain (len : Nat) :
    ∀ (cs : List (List Nat)) (sent : Nat),
      sent + (cs.map List.length).sum ≤ len →
      List.Chain' (· ≤ ·) (progList len sent cs) := by
  intro cs
  induction cs with
  | nil => intro sent _; simp [progList]
  | cons c cs ih =>
    intro sent hsum
    simp only [List.map_cons, List.sum_cons] at hsum
    simp only [progList]
    apply List.chain'_cons'.mpr
    refine ⟨?_, ih (sent + c.length) (by omega)⟩
    intro y hy
    cases cs with
    | nil =>
      simp only [progList, List.head?_cons, Option.mem_def, Option.some.injEq] at hy
      subst hy
      exact div_cast_le_one _ _ (by omega)
    | cons d ds =>
      simp only [progList, List.head?_cons, Option.mem_def, Option.some.injEq] at hy
      subst hy
      exact div_cast_mono _ _ _ (by omega)

lemma progList_getLast (len : Nat) :
    ∀ (cs : List (List Nat)) (sent : Nat),
      (progList len sent cs).getLast? = some 1 := by
  intro cs
  induction cs with
  | nil => intro sent; rfl
  | cons c cs ih =>
    intro sent
    cases cs with
    | nil => simp [progList, List.getLast?]
    | cons d ds =>
      have h := ih (sent + c.length)
      simp only [progList] at h ⊢
      rw [List.getLast?_cons_cons]
      exact h

/-- Claim C4: `sendRawPayload` splits any buffer into consecutive chunks
of at most `BULK_TRANSFER_SIZE` bytes, transmits them strictly in order
as sequential bulk-OUT transfers (the event trace lists them in
transmission order), and concatenating the transmitted chunks in that
order reconstructs the original buffer exactly; the buffer itself is
never consumed or altered by the model. -/
theorem c4_chunk_roundtrip (buffer : List Nat) :
    sendRawPayload buffer none =
      some (traceGo buffer.length none 0 0 (chunked buffer)) ∧
    transfersOf (traceGo buffer.length none 0 0 (chunked buffer)).1 =
      chunked buffer ∧
    (traceGo buffer.length none 0 0 (chunked buffer)).2 = true ∧
    (chunked buffer).flatten = buffer ∧
    ∀ c ∈ chunked buffer, 0 < c.length ∧ c.length ≤ BULK_TRANSFER_SIZE := by
  refine ⟨sendRawPayload_eq buffer none, traceGo_none_transfers _ _ 0 0,
    traceGo_none_snd _ _ 0 0, chunked_flatten buffer, fun c hc => chunked_mem _ _ hc⟩

/-- Witness for C4: the bound on the chunk length holds at the concrete
buffer `[1, 2, 3]`, whose single chunk is the buffer itself. -/
theorem c4_chunk_roundtrip_witness :
    0 < ([1, 2, 3] : List Nat).length ∧ ([1, 2, 3] : List Nat).length ≤ BULK_TRANSFER_SIZE :=
  (c4_chunk_roundtrip [1, 2, 3]).2.2.2.2 [1, 2, 3] (by decide)

/-- Claim C5: `sendRawPayload` reports `bytesSentSoFar / totalBytes`
before each chunk transfer and an unconditional final `1.0` after the
last chunk (a zero-length buffer gets exactly the one `1.0` call); the
reported values lie in `[0, 1]`, are monotonically non-decreasing, and
end at exactly `1`; a 20000-byte buffer is sent as two transfers of
16384 and 3616 bytes with progress reports `0`, `16384/20000`, `1`. -/
theorem c5_progress_reports :
    (∀ buffer : List Nat,
      sendRawPayload buffer none =
        some (traceGo buffer.length none 0 0 (chunked buffer)) ∧
      progressOf (traceGo buffer.length none 0 0 (chunked buffer)).1 =
        progList buffer.length 0 (chunked buffer) ∧
      (∀ q ∈ progList buffer.length 0 (chunked buffer), 0 ≤ q ∧ q ≤ 1) ∧
      List.Chain' (· ≤ ·) (progList buffer.length 0 (chunked buffer)) ∧
      (progList buffer.length 0 (chunked buffer)).getLast? = some 1) ∧
    sendRawPayload [] none = some ([UsbEvent.progress 1], true) ∧
    (∀ buffer : List Nat, buffer.length = 20000 →
      (chunked buffer).map List.length = [16384, 3616] ∧
      progressOf (traceGo buffer.length none 0 0 (chunked buffer)).1 =
        [0, (16384 : ℚ) / 20000, 1]) := by
  have hsum : ∀ buffer : List Nat,
      ((chunked buffer).map List.length).sum = buffer.length := by
    intro buffer
    rw [← List.length_flatten, chunked_flatten]
  refine ⟨?_, by decide, ?_⟩
  · intro buffer
    exact ⟨sendRawPayload_eq buffer none, traceGo_none_progress _ _ 0 0,
      progList_bounds _ _ 0 (by rw [hsum]; omega),
      progList_chain _ _ 0 (by rw [hsum]; omega),
      progList_getLast _ _ 0⟩
  · intro buffer hlen
    have hC : BULK_TRANSFER_SIZE = 16384 := rfl
    have hne : buffer ≠ [] := by
      intro h; rw [h] at hlen; simp at hlen
    have h1 : chunked buffer =
        buffer.take 16384 :: chunked (buffer.drop 16384) := by
      rw [← hC]; exact chunked_cons _ hne
    have hd1len : (buffer.drop 16384).length = 3616 := by
      rw [List.length_drop, hlen]
    have hd1ne : buffer.drop 16384 ≠ [] := by
      intro h; rw [h] at hd1len; simp at hd1len
    have h2 : chunked (buffer.drop 16384) =
        (buffer.drop 16384).take 16384 :: chunked ((buffer.drop 16384).drop 16384) := by
      rw [← hC]; exact chunked_cons _ hd1ne
    have hd2 : (buffer.drop 16384).drop 16384 = [] := by
      apply List.eq_nil_of_length_eq_zero
      rw [List.length_drop, hd1len]
    have ht1 : (buffer.take 16384).length = 16384 := by
      rw [List.length_take, hlen]; omega
    have ht2 : ((buffer.drop 16384).take 16384).length = 3616 := by
      rw [List.length_take, hd1len]; omega
    have hchunks : chunked buffer =
        [buffer.take 16384, (buffer.drop 16384).take 16384] := by
      rw [h1, h2, hd2, chunked_nil]
    refine ⟨by rw [hchunks]; simp only [List.map_cons, List.map_nil]; rw [ht1, ht2], ?_⟩
    rw [traceGo_none_progress, hchunks, hlen]
    simp only [progList, ht1, ht2]
    norm_num

/-- Witness for C5: a concrete 20000-byte buffer is transferred as the
two chunks of sizes 16384 and 3616 with progress reports
`0`, `16384/20000`, `1`. -/
theorem c5_progress_reports_witness :
    (chunked (List.replicate 20000 0)).map List.length = [16384, 3616] ∧
    progressOf (traceGo (List.replicate 20000 (0 : Nat)).length none 0 0
        (chunked (List.replicate 20000 0))).1 = [0, (16384 : ℚ) / 20000, 1] :=
  c5_progress_reports.2.2 (List.replicate 20000 0) (List.length_replicate 20000 0)

lemma traceGo_fail_spec (len k : Nat) :
    ∀ (cs : List (List Nat)) (i sent : Nat),
      i ≤ k → k < i + cs.length →
      (traceGo len (some k) i sent cs).2 = false ∧
      transfersOf (traceGo len (some k) i sent cs).1 = cs.take (k - i) ∧
      (sent + (cs.map List.length).sum ≤ len → (∀ c ∈ cs, 0 < c.length) →
        ∀ q ∈ progressOf (traceGo len (some k) i sent cs).1, q < 1) := by
  intro cs
  induction cs with
  | nil =>
    intro i sent hik hk
    simp only [List.length_nil, Nat.add_zero] at hk
    omega
  | cons c cs ih =>
    intro i sent hik hk
    by_cases hki : k = i
    · have hcond : (some k : Option Nat) = some i := by rw [hki]
      simp only [traceGo]
      rw [if_pos hcond]
      refine ⟨rfl, by simp [transfersOf, hki], ?_⟩
      intro hsum hpos q hq
      simp only [List.map_cons, List.sum_cons] at hsum
      have hc : 0 < c.length := hpos c (List.mem_cons_self c cs)
      simp only [progressOf, List.filterMap_cons, List.filterMap_nil,
        List.mem_singleton] at hq
      subst hq
      exact div_cast_lt_one _ _ (by omega)
    · have hne : ¬ (some k = some i) := by simp [hki]
      simp only [traceGo, if_neg hne]
      have hlen : k < (i + 1) + cs.length := by
        simp only [List.length_cons] at hk; omega
      obtain ⟨hsnd, htr, hpr⟩ := ih (i + 1) (sent + c.length) (by omega) hlen
      refine ⟨hsnd, ?_, ?_⟩
      · simp only [transfersOf, List.filterMap_cons]
        rw [show k - i = (k - (i + 1)) + 1 by omega, List.take_succ_cons]
        exact congrArg (c :: ·) htr
      · intro hsum hpos q hq
        simp only [List.map_cons, List.sum_cons] at hsum
        have hc : 0 < c.length := hpos c (List.mem_cons_self c cs)
        simp only [progressOf, List.filterMap_cons, List.mem_cons] at hq
        rcases hq with hq | hq
        · subst hq
          exact div_cast_lt_one _ _ (by omega)
        · exact hpr (by omega) (fun x hx => hpos x (List.mem_cons_of_mem c hx)) q hq

/-- Claim C9: if the bulk-OUT transfer of chunk `k` fails mid-stream,
the failure propagates (`false` outcome), the transmitted chunks are
exactly the chunks before `k` — no further chunk is sent — and the final
`onProgress(1.0)` call never happens: every reported progress value is
strictly below `1`. -/
theorem c9_midstream_failure (buffer : List Nat) (k : Nat)
    (hk : k < (chunked buffer).length) :
    sendRawPayload buffer (some k) =
      some (traceGo buffer.length (some k) 0 0 (chunked buffer)) ∧
    (traceGo buffer.length (some k) 0 0 (chunked buffer)).2 = false ∧
    transfersOf (traceGo buffer.length (some k) 0 0 (chunked buffer)).1 =
      (chunked buffer).take k ∧
    ∀ q ∈ progressOf (traceGo buffer.length (some k) 0 0 (chunked buffer)).1,
      q < 1 := by
  obtain ⟨hsnd, htr, hpr⟩ := traceGo_fail_spec buffer.length k (chunked buffer) 0 0
    (Nat.zero_le k) (by omega)
  refine ⟨sendRawPayload_eq buffer (some k), hsnd, by simpa using htr, ?_⟩
  apply hpr
  · rw [← List.length_flatten, chunked_flatten]; omega
  · exact fun c hc => (chunked_mem _ _ hc).1

/-- Witness for C9: the transfer of the single chunk of the one-byte
buffer `[7]` fails, the outcome is failure, nothing was transmitted, and
no progress value reaches `1`. -/
theorem c9_midstream_failure_witness :
    sendRawPayload [7] (some 0) =
      some (traceGo ([7] : List Nat).length (some 0) 0 0 (chunked [7])) ∧
    (traceGo ([7] : List Nat).length (some 0) 0 0 (chunked [7])).2 = false ∧
    transfersOf (traceGo ([7] : List Nat).length (some 0) 0 0 (chunked [7])).1 =
      (chunked [7]).take 0 ∧
    ∀ q ∈ progressOf (traceGo ([7] : List Nat).length (some 0) 0 0 (chunked [7])).1,
      q < 1 :=
  c9_midstream_failure [7] 0 (by decide)

/-- The length JavaScript reports for a string (`command.length`): the
number of UTF-16 code units, counting characters above the basic
multilingual plane twice. -/
def jsStringLength (s : String) : Nat :=
  (s.data.map fun c => if c.toNat < 65536 then 1 else 2).sum

/-- UTF-8 encoding of one character, as produced by `TextEncoder`. -/
def utf8Bytes (c : Char) : List Nat :=
  let n := c.toNat
  if n < 128 then [n]
  else if n < 2048 then [192 + n / 64, 128 + n % 64]
  else if n < 65536 then [224 + n / 4096, 128 + n / 64 % 64, 128 + n % 64]
  else [240 + n / 262144, 128 + n / 4096 % 64, 128 + n / 64 % 64, 128 + n % 64]

/-- `new TextEncoder().encode(command)`: the raw UTF-8 bytes of the
command packet. -/
def encodeCommand (s : String) : List Nat :=
  (s.data.map utf8Bytes).flatten

/-- Outcome of `runCommand`: a `RangeError` thrown before any transfer,
or a single bulk-OUT transfer of the encoded bytes followed by
`readResponse` on the incoming packet stream. -/
inductive CmdResult where
  | rangeError : CmdResult
  | sent : List Nat → ReadResult → CmdResult
deriving DecidableEq, Repr

/-- `FastbootDevice.runCommand`: rejects commands whose JavaScript
string length exceeds 64, otherwise performs exactly one transfer of the
UTF-8 encoded command and delegates to `readResponse`. -/
def runCommand (command : String) (packets : List String) : CmdResult :=
  if 64 < jsStringLength command then CmdResult.rangeError
  else CmdResult.sent (encodeCommand command) (readResponse packets)

/-- Claim C6: a command whose length exceeds 64 fails with a
`RangeError` before any bytes reach the OUT endpoint; a command of
length at most 64 is sent as exactly one bulk-OUT transfer of its
encoded bytes followed by `readResponse`, with no retry; for ASCII
commands this length equals the encoded byte count, and a 65-character
ASCII command is rejected. -/
theorem c6_command_validation :
    (∀ (command : String) (packets : List String),
        64 < jsStringLength command →
        runCommand command packets = CmdResult.rangeError) ∧
    (∀ (command : String) (packets : List String),
        jsStringLength command ≤ 64 →
        runCommand command packets =
          CmdResult.sent (encodeCommand command) (readResponse packets)) ∧
    (∀ command : String, (∀ c ∈ command.data, c.toNat < 128) →
        (encodeCommand command).length = jsStringLength command) ∧
    runCommand (String.mk (List.replicate 65 'a')) [] = CmdResult.rangeError := by
  refine ⟨?_, ?_, ?_, by decide⟩
  · intro command packets h
    simp only [runCommand, if_pos h]
  · intro command packets h
    simp only [runCommand, if_neg (by omega : ¬ 64 < jsStringLength command)]
  · intro command hascii
    simp only [encodeCommand, jsStringLength]
    have aux : ∀ l : List Char, (∀ c ∈ l, c.toNat < 128) →
        ((l.map utf8Bytes).flatten).length =
          (l.map fun c => if c.toNat < 65536 then 1 else 2).sum := by
      intro l
      induction l with
      | nil => intro _; rfl
      | cons c cs ih =>
        intro h
        have hc : c.toNat < 128 := h c (List.mem_cons_self c cs)
        have hcs : ∀ x ∈ cs, x.toNat < 128 := fun x hx =>
          h x (List.mem_cons_of_mem c hx)
        simp only [List.map_cons, List.flatten_cons, List.sum_cons,
          List.length_append]
        rw [ih hcs]
        have hone : (utf8Bytes c).length = 1 := by
          simp only [utf8Bytes, if_pos hc, List.length_singleton]
        rw [hone, if_pos (by omega : c.toNat < 65536)]
    exact aux command.data hascii

/-- Witness for C6: the 10-character command `"getvar:all"` passes the
length check and is transmitted as one transfer, and a 65-character
ASCII command is rejected. -/
theorem c6_command_validation_witness :
    runCommand "getvar:all" ["OKAYok"] =
      CmdResult.sent (encodeCommand "getvar:all") (readResponse ["OKAYok"]) ∧
    (encodeCommand "getvar:all").length = jsStringLength "getvar:all" :=
  ⟨c6_command_validation.2.1 "getvar:all" ["OKAYok"] (by decide),
   c6_command_validation.2.2.1 "getvar:all" (by decide)⟩

/-- Claim C10: `runCommand` checks the UTF-16 length before UTF-8
encoding, so the command made of 33 euro signs (UTF-16 length 33 ≤ 64,
UTF-8 length 99 bytes) raises no `RangeError` and a packet longer than
64 bytes is transmitted on the OUT endpoint. -/
theorem c10_utf16_length_bypass :
    jsStringLength (String.mk (List.replicate 33 '€')) ≤ 64 ∧
    runCommand (String.mk (List.replicate 33 '€')) [] =
      CmdResult.sent (encodeCommand (String.mk (List.replicate 33 '€')))
        (readResponse []) ∧
    64 < (encodeCommand (String.mk (List.replicate 33 '€'))).length := by
  refine ⟨by decide, ?_, by decide⟩
  exact c6_command_validation.2.1 _ [] (by decide)

/-- One entry of `ife.endpoints` as inspected by
`_validateAndConnectDevice`: its transfer type, direction and number. -/
structure EndpointDesc where
  type : String
  direction : String
  endpointNumber : Nat
deriving DecidableEq, Repr

/-- Outcome of the endpoint scan: the recorded IN and OUT endpoint
numbers, or a thrown `UsbError` with its message. -/
inductive ScanResult where
  | ok : Nat → Nat → ScanResult
  | usbError : String → ScanResult
deriving DecidableEq, Repr

/-- The `for (let endpoint of ife.endpoints)` loop of
`_validateAndConnectDevice` together with the `epIn == null || epOut ==
null` check after it; `epIn`/`epOut` are the mutable fields threaded
through the recursion. -/
def scanEndpoints : List EndpointDesc → Option Nat → Option Nat → ScanResult
  | [], epIn, epOut =>
    match epIn, epOut with
    | some i, some o => ScanResult.ok i o
    | _, _ => ScanResult.usbError "Could not find the required IN and OUT endpoints"
  | e :: rest, epIn, epOut =>
    if e.type ≠ "bulk" then scanEndpoints rest epIn epOut
    else if e.direction = "in" then
      match epIn with
      | some _ => ScanResult.usbError "Interface has multiple IN endpoints"
      | none => scanEndpoints rest (some e.endpointNumber) epOut
    else if e.direction = "out" then
      match epOut with
      | some _ => ScanResult.usbError "Interface has multiple OUT endpoints"
      | none => scanEndpoints rest epIn (some e.endpointNumber)
    else scanEndpoints rest epIn epOut

/-- The endpoint validation of `_validateAndConnectDevice`, starting
with `this.epIn = null; this.epOut = null`. -/
def validateEndpoints (endpoints : List EndpointDesc) : ScanResult :=
  scanEndpoints endpoints none none

/-- Number of bulk-IN endpoints in a descriptor list. -/
def countBulkIn (l : List EndpointDesc) : Nat :=
  l.countP fun e => e.type == "bulk" && e.direction == "in"

/-- Number of bulk-OUT endpoints in a descriptor list. -/
def countBulkOut (l : List EndpointDesc) : Nat :=
  l.countP fun e => e.type == "bulk" && e.direction == "out"

lemma scanEndpoints_step_nonbulk (e : EndpointDesc) (rest : List EndpointDesc)
    (a b : Option Nat) (h : ¬ e.type = "bulk") :
    scanEndpoints (e :: rest) a b = scanEndpoints rest a b := by
  simp only [scanEndpoints, if_pos h]

lemma scanEndpoints_step_in_none (e : EndpointDesc) (rest : List EndpointDesc)
    (b : Option Nat) (h1 : e.type = "bulk") (h2 : e.direction = "in") :
    scanEndpoints (e :: rest) none b =
      scanEndpoints rest (some e.endpointNumber) b := by
  simp only [scanEndpoints, if_neg (not_not_intro h1), if_pos h2]

lemma scanEndpoints_step_in_some (e : EndpointDesc) (rest : List EndpointDesc)
    (i : Nat) (b : Option Nat) (h1 : e.type = "bulk") (h2 : e.direction = "in") :
    scanEndpoints (e :: rest) (some i) b =
      ScanResult.usbError "Interface has multiple IN endpoints" := by
  simp only [scanEndpoints, if_neg (not_not_intro h1), if_pos h2]

lemma scanEndpoints_step_out_none (e : EndpointDesc) (rest : List EndpointDesc)
    (a : Option Nat) (h1 : e.type = "bulk") (h2 : e.direction = "out") :
    scanEndpoints (e :: rest) a none =
      scanEndpoints rest a (some e.endpointNumber) := by
  have hin : ¬ e.direction = "in" := by rw [h2]; decide
  simp only [scanEndpoints, if_neg (not_not_intro h1), if_neg hin, if_pos h2]

lemma scanEndpoints_step_out_some (e : EndpointDesc) (rest : List EndpointDesc)
    (a : Option Nat) (o : Nat) (h1 : e.type = "bulk") (h2 : e.direction = "out") :
    scanEndpoints (e :: rest) a (some o) =
      ScanResult.usbError "Interface has multiple OUT endpoints" := by
  have hin : ¬ e.direction = "in" := by rw [h2]; decide
  simp only [scanEndpoints, if_neg (not_not_intro h1), if_neg hin, if_pos h2]

lemma scanEndpoints_step_other (e : EndpointDesc) (rest : List EndpointDesc)
    (a b : Option Nat) (h1 : e.type = "bulk") (h2 : ¬ e.direction = "in")
    (h3 : ¬ e.direction = "out") :
    scanEndpoints (e :: rest) a b = scanEndpoints rest a b := by
  simp only [scanEndpoints, if_neg (not_not_intro h1), if_neg h2, if_neg h3]

lemma countBulkIn_cons (e : EndpointDesc) (rest : List EndpointDesc) :
    countBulkIn (e :: rest) =
      countBulkIn rest + (if e.type = "bulk" ∧ e.direction = "in" then 1 else 0) := by
  simp [countBulkIn, List.countP_cons, Bool.and_eq_true, beq_iff_eq,
    decide_eq_true_eq]

lemma countBulkOut_cons (e : EndpointDesc) (rest : List EndpointDesc) :
    countBulkOut (e :: rest) =
      countBulkOut rest + (if e.type = "bulk" ∧ e.direction = "out" then 1 else 0) := by
  simp [countBulkOut, List.countP_cons, Bool.and_eq_true, beq_iff_eq,
    decide_eq_true_eq]

lemma scanEndpoints_notFound :
    ∀ (l : List EndpointDesc) (a b : Option Nat),
      countBulkIn l + (if a.isSome then 1 else 0) ≤ 1 →
      countBulkOut l + (if b.isSome then 1 else 0) ≤ 1 →
      ((countBulkIn l = 0 ∧ a = none) ∨ (countBulkOut l = 0 ∧ b = none)) →
      scanEndpoints l a b =
        ScanResult.usbError "Could not find the required IN and OUT endpoints" := by
  intro l
  induction l with
  | nil =>
    intro a b _ _ hmiss
    rcases hmiss with ⟨_, ha⟩ | ⟨_, hb⟩
    · subst ha; cases b <;> rfl
    · subst hb; cases a <;> rfl
  | cons e rest ih =>
    intro a b hin hout hmiss
    by_cases hbulk : e.type = "bulk"
    · by_cases hdir_in : e.direction = "in"
      · have hcount : countBulkIn (e :: rest) = countBulkIn rest + 1 := by
          rw [countBulkIn_cons, if_pos ⟨hbulk, hdir_in⟩]
        have hcount_out : countBulkOut (e :: rest) = countBulkOut rest := by
          rw [countBulkOut_cons,
            if_neg (fun hc => by rw [hdir_in] at hc; exact absurd hc.2 (by decide))]; omega
        have ha : a = none := by
          rcases a with _ | av
          · rfl
          · exfalso; rw [hcount] at hin; simp at hin
        subst ha
        rw [scanEndpoints_step_in_none e rest b hbulk hdir_in]
        apply ih
        · rw [hcount] at hin; simp at hin ⊢; omega
        · rw [hcount_out] at hout; exact hout
        · rcases hmiss with ⟨hzero, _⟩ | ⟨hzero, hb⟩
          · exfalso; rw [hcount] at hzero; omega
          · exact Or.inr ⟨by rw [← hcount_out]; exact hzero, hb⟩
      · by_cases hdir_out : e.direction = "out"
        · have hcount : countBulkOut (e :: rest) = countBulkOut rest + 1 := by
            rw [countBulkOut_cons, if_pos ⟨hbulk, hdir_out⟩]
          have hcount_in : countBulkIn (e :: rest) = countBulkIn rest := by
            rw [countBulkIn_cons, if_neg (fun hc => hdir_in hc.2)]; omega
          have hb : b = none := by
            rcases b with _ | bv
            · rfl
            · exfalso; rw [hcount] at hout; simp at hout
          subst hb
          rw [scanEndpoints_step_out_none e rest a hbulk hdir_out]
          apply ih
          · rw [hcount_in] at hin; exact hin
          · rw [hcount] at hout; simp at hout ⊢; omega
          · rcases hmiss with ⟨hzero, ha⟩ | ⟨hzero, _⟩
            · exact Or.inl ⟨by rw [← hcount_in]; exact hzero, ha⟩
            · exfalso; rw [hcount] at hzero; omega
        · have hcount_in : countBulkIn (e :: rest) = countBulkIn rest := by
            rw [countBulkIn_cons, if_neg (fun hc => hdir_in hc.2)]; omega
          have hcount_out : countBulkOut (e :: rest) = countBulkOut rest := by
            rw [countBulkOut_cons, if_neg (fun hc => hdir_out hc.2)]; omega
          rw [scanEndpoints_step_other e rest a b hbulk hdir_in hdir_out]
          apply ih
          · rw [hcount_in] at hin; exact hin
          · rw [hcount_out] at hout; exact hout
          · rcases hmiss with ⟨hzero, ha⟩ | ⟨hzero, hb⟩
            · exact Or.inl ⟨by rw [← hcount_in]; exact hzero, ha⟩
            · exact Or.inr ⟨by rw [← hcount_out]; exact hzero, hb⟩
    · have hcount_in : countBulkIn (e :: rest) = countBulkIn rest := by
        rw [countBulkIn_cons, if_neg (fun hc => hbulk hc.1)]; omega
      have hcount_out : countBulkOut (e :: rest) = countBulkOut rest := by
        rw [countBulkOut_cons, if_neg (fun hc => hbulk hc.1)]; omega
      rw [scanEndpoints_step_nonbulk e rest a b hbulk]
      apply ih
      · rw [hcount_in] at hin; exact hin
      · rw [hcount_out] at hout; exact hout
      · rcases hmiss with ⟨hzero, ha⟩ | ⟨hzero, hb⟩
        · exact Or.inl ⟨by rw [← hcount_in]; exact hzero, ha⟩
        · exact Or.inr ⟨by rw [← hcount_out]; exact hzero, hb⟩

lemma scanEndpoints_ok_counts :
    ∀ (l : List EndpointDesc) (a b : Option Nat) (i o : Nat),
      scanEndpoints l a b = ScanResult.ok i o →
      countBulkIn l + (if a.isSome then 1 else 0) = 1 ∧
      countBulkOut l + (if b.isSome then 1 else 0) = 1 := by
  intro l
  induction l with
  | nil =>
    intro a b i o h
    rcases a with _ | av <;> rcases b with _ | bv
    · cases h
    · cases h
    · cases h
    · simp [countBulkIn, countBulkOut]
  | cons e rest ih =>
    intro a b i o h
    by_cases hbulk : e.type = "bulk"
    · by_cases hdir_in : e.direction = "in"
      · have hcount : countBulkIn (e :: rest) = countBulkIn rest + 1 := by
          rw [countBulkIn_cons, if_pos ⟨hbulk, hdir_in⟩]
        have hcount_out : countBulkOut (e :: rest) = countBulkOut rest := by
          rw [countBulkOut_cons,
            if_neg (fun hc => by rw [hdir_in] at hc; exact absurd hc.2 (by decide))]; omega
        rcases a with _ | av
        · rw [scanEndpoints_step_in_none e rest b hbulk hdir_in] at h
          obtain ⟨h1, h2⟩ := ih _ _ _ _ h
          refine ⟨?_, by rw [hcount_out]; exact h2⟩
          rw [hcount]
          simp at h1 ⊢; omega
        · rw [scanEndpoints_step_in_some e rest av b hbulk hdir_in] at h
          cases h
      · by_cases hdir_out : e.direction = "out"
        · have hcount : countBulkOut (e :: rest) = countBulkOut rest + 1 := by
            rw [countBulkOut_cons, if_pos ⟨hbulk, hdir_out⟩]
          have hcount_in : countBulkIn (e :: rest) = countBulkIn rest := by
            rw [countBulkIn_cons, if_neg (fun hc => hdir_in hc.2)]; omega
          rcases b with _ | bv
          · rw [scanEndpoints_step_out_none e rest a hbulk hdir_out] at h
            obtain ⟨h1, h2⟩ := ih _ _ _ _ h
            refine ⟨by rw [hcount_in]; exact h1, ?_⟩
            rw [hcount]
            simp at h2 ⊢; omega
          · rw [scanEndpoints_step_out_some e rest a bv hbulk hdir_out] at h
            cases h
        · have hcount_in : countBulkIn (e :: rest) = countBulkIn rest := by
            rw [countBulkIn_cons, if_neg (fun hc => hdir_in hc.2)]; omega
          have hcount_out : countBulkOut (e :: rest) = countBulkOut rest := by
            rw [countBulkOut_cons, if_neg (fun hc => hdir_out hc.2)]; omega
          rw [scanEndpoints_step_other e rest a b hbulk hdir_in hdir_out] at h
          obtain ⟨h1, h2⟩ := ih _ _ _ _ h
          exact ⟨by rw [hcount_in]; exact h1, by rw [hcount_out]; exact h2⟩
    · have hcount_in : countBulkIn (e :: rest) = countBulkIn rest := by
        rw [countBulkIn_cons, if_neg (fun hc => hbulk hc.1)]; omega
      have hcount_out : countBulkOut (e :: rest) = countBulkOut rest := by
        rw [countBulkOut_cons, if_neg (fun hc => hbulk hc.1)]; omega
      rw [scanEndpoints_step_nonbulk e rest a b hbulk] at h
      obtain ⟨h1, h2⟩ := ih _ _ _ _ h
      exact ⟨by rw [hcount_in]; exact h1, by rw [hcount_out]; exact h2⟩

/-- Counterexample to claim C7 as stated: the descriptor set with two
bulk-OUT endpoints and no bulk-IN endpoint does not fail with the
"endpoints not found" error — the duplicate check inside the scan loop
fires first and reports "multiple OUT endpoints". -/
theorem c7_endpoint_discovery_counterexample :
    countBulkIn [EndpointDesc.mk "bulk" "out" 1, EndpointDesc.mk "bulk" "out" 2] = 0 ∧
    validateEndpoints [EndpointDesc.mk "bulk" "out" 1, EndpointDesc.mk "bulk" "out" 2] =
      ScanResult.usbError "Interface has multiple OUT endpoints" ∧
    validateEndpoints [EndpointDesc.mk "bulk" "out" 1, EndpointDesc.mk "bulk" "out" 2] ≠
      ScanResult.usbError "Could not find the required IN and OUT endpoints" := by
  decide

/-- Claim C7 (amended): endpoint discovery ignores non-bulk endpoints;
it fails with the "endpoints not found" `UsbError` when no bulk-IN or no
bulk-OUT endpoint is present, provided no direction has a second bulk
endpoint (a duplicate is reported as the corresponding
multiple-endpoints error instead, which takes precedence); a second
bulk-IN endpoint seen by the scan fails with the "multiple IN
endpoints" error, symmetrically for OUT; a successful discovery records
exactly one bulk-IN and one bulk-OUT endpoint. -/
theorem c7_endpoint_discovery :
    (∀ (e : EndpointDesc) (rest : List EndpointDesc) (a b : Option Nat),
        ¬ e.type = "bulk" →
        scanEndpoints (e :: rest) a b = scanEndpoints rest a b) ∧
    (∀ l : List EndpointDesc,
        countBulkIn l ≤ 1 → countBulkOut l ≤ 1 →
        (countBulkIn l = 0 ∨ countBulkOut l = 0) →
        validateEndpoints l =
          ScanResult.usbError "Could not find the required IN and OUT endpoints") ∧
    (∀ (e : EndpointDesc) (rest : List EndpointDesc) (i : Nat) (b : Option Nat),
        e.type = "bulk" → e.direction = "in" →
        scanEndpoints (e :: rest) (some i) b =
          ScanResult.usbError "Interface has multiple IN endpoints") ∧
    (∀ (e : EndpointDesc) (rest : List EndpointDesc) (a : Option Nat) (o : Nat),
        e.type = "bulk" → e.direction = "out" →
        scanEndpoints (e :: rest) a (some o) =
          ScanResult.usbError "Interface has multiple OUT endpoints") ∧
    (∀ (l : List EndpointDesc) (i o : Nat),
        validateEndpoints l = ScanResult.ok i o →
        countBulkIn l = 1 ∧ countBulkOut l = 1) := by
  refine ⟨scanEndpoints_step_nonbulk, ?_, ?_, ?_, ?_⟩
  · intro l h1 h2 hmiss
    apply scanEndpoints_notFound l none none
    · simpa using h1
    · simpa using h2
    · rcases hmiss with h | h
      · exact Or.inl ⟨h, rfl⟩
      · exact Or.inr ⟨h, rfl⟩
  · intro e rest i b h1 h2
    exact scanEndpoints_step_in_some e rest i b h1 h2
  · intro e rest a o h1 h2
    exact scanEndpoints_step_out_some e rest a o h1 h2
  · intro l i o h
    obtain ⟨h1, h2⟩ := scanEndpoints_ok_counts l none none i o h
    constructor
    · simpa using h1
    · simpa using h2

/-- Witness for C7 (amended): a lone bulk-IN endpoint yields the
"endpoints not found" error, and discovery on one bulk-IN plus one
bulk-OUT endpoint succeeds with exactly one endpoint of each
direction. -/
theorem c7_endpoint_discovery_witness :
    validateEndpoints [EndpointDesc.mk "bulk" "in" 1] =
      ScanResult.usbError "Could not find the required IN and OUT endpoints" ∧
    (countBulkIn [EndpointDesc.mk "bulk" "in" 1, EndpointDesc.mk "bulk" "out" 2] = 1 ∧
     countBulkOut [EndpointDesc.mk "bulk" "in" 1, EndpointDesc.mk "bulk" "out" 2] = 1) :=
  ⟨c7_endpoint_discovery.2.1 [EndpointDesc.mk "bulk" "in" 1]
      (by decide) (by decide) (Or.inr (by decide)),
   c7_endpoint_discovery.2.2.2.2 [EndpointDesc.mk "bulk" "in" 1, EndpointDesc.mk "bulk" "out" 2]
      1 2 (by decide)⟩

/-- The character JavaScript uses for hex digit `d` in
`Number.prototype.toString(16)`: `0`–`9` then lowercase `a`–`f`. -/
def hexDigitChar (d : Nat) : Char :=
  if d < 10 then Char.ofNat (48 + d) else Char.ofNat (87 + d)

/-- Fuelled most-significant-first hex digit expansion of a natural. -/
def hexCharsGo : Nat → Nat → List Char
  | 0, _ => []
  | fuel + 1, n =>
    if n < 16 then [hexDigitChar n]
    else hexCharsGo fuel (n / 16) ++ [hexDigitChar (n % 16)]

/-- Model of `n.toString(16)` for a nonnegative integer `n`. -/
def jsHexString (n : Nat) : String :=
  String.mk (hexCharsGo (n + 1) n)

/-- Model of `s.padStart(8, "0")`. -/
def padStart8 (s : String) : String :=
  String.mk (List.replicate (8 - s.length) '0' ++ s.data)

/-- The download command sent before streaming an `n`-byte payload:
`download:${xferHex}` in `unlockBootloader`. -/
def downloadCommand (n : Nat) : String :=
  "download:" ++ padStart8 (jsHexString n)

/-- Numeric value of a hex digit character, case-insensitive; `none` for
a non-digit. -/
def hexDigitVal? (c : Char) : Option Nat :=
  if 48 ≤ c.toNat ∧ c.toNat ≤ 57 then some (c.toNat - 48)
  else if 97 ≤ c.toNat ∧ c.toNat ≤ 102 then some (c.toNat - 87)
  else if 65 ≤ c.toNat ∧ c.toNat ≤ 70 then some (c.toNat - 55)
  else none

/-- Horner accumulation of leading hex digits; stops at the first
non-digit character, as `parseInt` does. -/
def parseHexAux : List Char → Nat → Nat
  | [], acc => acc
  | c :: cs, acc =>
    match hexDigitVal? c with
    | none => acc
    | some d => parseHexAux cs (acc * 16 + d)

/-- JavaScript whitespace skipped by `parseInt` before the number. -/
def isJsSpace (c : Char) : Bool :=
  c = ' ' ∨ c = '\t' ∨ c = '\n' ∨ c = '\r' ∨ c = '\x0b' ∨ c = '\x0c'

/-- The optional `0x`/`0X` marker `parseInt(_, 16)` strips. -/
def stripHexMark (l : List Char) : List Char :=
  match l with
  | a :: b :: r => if a = '0' ∧ (b = 'x' ∨ b = 'X') then r else l
  | _ => l

/-- Digits part of `parseInt(_, 16)`: `none` (NaN) when no leading hex
digit exists. -/
def parseUnsignedHex (l : List Char) : Option Nat :=
  match l with
  | [] => none
  | c :: cs =>
    match hexDigitVal? c with
    | none => none
    | some _ => some (parseHexAux (c :: cs) 0)

/-- Sign handling of `parseInt`. -/
def parseSigned (l : List Char) : Option Int :=
  match l with
  | [] => none
  | c :: r =>
    if c = '-' then (parseUnsignedHex (stripHexMark r)).map (fun m => -(m : Int))
    else if c = '+' then (parseUnsignedHex (stripHexMark r)).map (fun m => (m : Int))
    else (parseUnsignedHex (stripHexMark (c :: r))).map (fun m => (m : Int))

/-- Model of `parseInt(s, 16)`; `none` stands for `NaN`. -/
def jsParseInt16 (s : String) : Option Int :=
  parseSigned (s.data.dropWhile isJsSpace)

/-- Outcome of the download negotiation in `unlockBootloader` (main.js):
the transfer-size overflow throw, the missing-`dataSize` throw, the
size-mismatch throw, or streaming the payload via `sendRawPayload`. -/
inductive DownloadOutcome where
  | overflow : DownloadOutcome
  | noDataSize : DownloadOutcome
  | mismatch : DownloadOutcome
  | send : DownloadOutcome
deriving DecidableEq, Repr

/-- Lines 46–71 of `unlockBootloader`, given the payload byte length `n`
and the `Response` returned by `runCommand("download:...")`: computes
`xferHex`, checks its length, then requires `dataSize` to be present and
`parseInt(dataSize, 16)` to equal `n` before streaming. -/
def downloadNegotiation (n : Nat) (resp : Response) : DownloadOutcome :=
  let xferHex := padStart8 (jsHexString n)
  if xferHex.length ≠ 8 then DownloadOutcome.overflow
  else
    match resp.dataSize with
    | none => DownloadOutcome.noDataSize
    | some ds =>
      match jsParseInt16 ds with
      | none => DownloadOutcome.mismatch
      | some size =>
        if size ≠ (n : Int) then DownloadOutcome.mismatch else DownloadOutcome.send

lemma hexDigitVal?_hexDigitChar : ∀ d, d < 16 → hexDigitVal? (hexDigitChar d) = some d := by
  decide

lemma parseHexAux_append (l r : List Char) :
    (∀ c ∈ l, (hexDigitVal? c).isSome) →
    ∀ acc, parseHexAux (l ++ r) acc = parseHexAux r (parseHexAux l acc) := by
  induction l with
  | nil => intro _ acc; rfl
  | cons c cs ih =>
    intro h acc
    obtain ⟨d, hd⟩ := Option.isSome_iff_exists.mp (h c (List.mem_cons_self c cs))
    simp only [List.cons_append, parseHexAux, hd]
    exact ih (fun x hx => h x (List.mem_cons_of_mem c hx)) (acc * 16 + d)

lemma hexCharsGo_spec :
    ∀ (fuel n : Nat), n < fuel →
      hexCharsGo fuel n ≠ [] ∧
      (∀ c ∈ hexCharsGo fuel n, (hexDigitVal? c).isSome) ∧
      ∀ acc, parseHexAux (hexCharsGo fuel n) acc =
        acc * 16 ^ (hexCharsGo fuel n).length + n := by
  intro fuel
  induction fuel with
  | zero => intro n h; omega
  | succ fuel ih =>
    intro n hn
    by_cases hsmall : n < 16
    · simp only [hexCharsGo, if_pos hsmall]
      refine ⟨by simp, ?_, ?_⟩
      · intro c hc
        rw [List.mem_singleton] at hc
        subst hc
        rw [hexDigitVal?_hexDigitChar n hsmall]
        rfl
      · intro acc
        simp only [parseHexAux, hexDigitVal?_hexDigitChar n hsmall,
          List.length_singleton, pow_one]
    · have hdiv : n / 16 < fuel := by
        have h1 : n / 16 < n := Nat.div_lt_self (by omega) (by omega)
        omega
      obtain ⟨hne, hdig, hparse⟩ := ih (n / 16) hdiv
      have hmod : n % 16 < 16 := Nat.mod_lt n (by omega)
      simp only [hexCharsGo, if_neg hsmall]
      refine ⟨by simp, ?_, ?_⟩
      · intro c hc
        rcases List.mem_append.mp hc with hc | hc
        · exact hdig c hc
        · rw [List.mem_singleton] at hc
          subst hc
          rw [hexDigitVal?_hexDigitChar _ hmod]
          rfl
      · intro acc
        rw [parseHexAux_append _ _ hdig acc]
        simp only [parseHexAux, hexDigitVal?_hexDigitChar _ hmod]
        rw [hparse acc, List.length_append, List.length_singleton]
        have : 16 ^ ((hexCharsGo fuel (n / 16)).length + 1)
            = 16 ^ (hexCharsGo fuel (n / 16)).length * 16 := pow_succ 16 _
        rw [this]
        have hdm : n / 16 * 16 + n % 16 = n := by omega
        ring_nf
        omega

lemma hexCharsGo_length :
    ∀ (fuel n k : Nat), n < fuel → n < 16 ^ (k + 1) →
      (hexCharsGo fuel n).length ≤ k + 1 := by
  intro fuel
  induction fuel with
  | zero => intro n k h; omega
  | succ fuel ih =>
    intro n k hn hk
    by_cases hsmall : n < 16
    · simp only [hexCharsGo, if_pos hsmall, List.length_singleton]
      omega
    · cases k with
      | zero => norm_num at hk; omega
      | succ k =>
        have hdiv : n / 16 < fuel := by
          have h1 : n / 16 < n := Nat.div_lt_self (by omega) (by omega)
          omega
        have hdivpow : n / 16 < 16 ^ (k + 1) := by
          rw [Nat.div_lt_iff_lt_mul (by omega : (0 : Nat) < 16)]
          calc n < 16 ^ (k + 1 + 1) := hk
          _ = 16 ^ (k + 1) * 16 := pow_succ 16 _
        have := ih (n / 16) k hdiv hdivpow
        simp only [hexCharsGo, if_neg hsmall, List.length_append,
          List.length_singleton]
        omega

lemma hexDigit_not_space (c : Char) (h : (hexDigitVal? c).isSome) :
    isJsSpace c = false := by
  cases hsp : isJsSpace c with
  | false => rfl
  | true =>
    exfalso
    have hc : c = ' ' ∨ c = '\t' ∨ c = '\n' ∨ c = '\r' ∨ c = '\x0b' ∨ c = '\x0c' := by
      simpa [isJsSpace] using hsp
    rcases hc with rfl | rfl | rfl | rfl | rfl | rfl <;> exact absurd h (by decide)

lemma dropWhile_of_digits (l : List Char)
    (h : ∀ c ∈ l, (hexDigitVal? c).isSome) :
    l.dropWhile isJsSpace = l := by
  cases l with
  | nil => rfl
  | cons c cs =>
    have := hexDigit_not_space c (h c (List.mem_cons_self c cs))
    simp [List.dropWhile_cons, this]

lemma parseHexAux_zeros : ∀ (m : Nat) (acc : Nat),
    parseHexAux (List.replicate m '0') acc = acc * 16 ^ m := by
  intro m
  induction m with
  | zero => intro acc; simp [parseHexAux]
  | succ m ih =>
    intro acc
    have h0 : hexDigitVal? '0' = some 0 := by decide
    simp only [List.replicate_succ, parseHexAux, h0]
    rw [ih (acc * 16 + 0)]
    ring

lemma padStart8_data (n : Nat) :
    (padStart8 (jsHexString n)).data =
      List.replicate (8 - (hexCharsGo (n + 1) n).length) '0' ++ hexCharsGo (n + 1) n :=
  rfl

lemma parse_pad_hex (n : Nat) :
    jsParseInt16 (padStart8 (jsHexString n)) = some (n : Int) := by
  obtain ⟨hne, hdig, hparse⟩ := hexCharsGo_spec (n + 1) n (by omega)
  have hall : ∀ c ∈ (padStart8 (jsHexString n)).data, (hexDigitVal? c).isSome := by
    rw [padStart8_data]
    intro c hc
    rcases List.mem_append.mp hc with hc | hc
    · rw [List.eq_of_mem_replicate hc]
      decide
    · exact hdig c hc
  unfold jsParseInt16
  rw [dropWhile_of_digits _ hall]
  obtain ⟨c, cs, hcons⟩ : ∃ c cs, (padStart8 (jsHexString n)).data = c :: cs := by
    rw [padStart8_data]
    cases hz : List.replicate (8 - (hexCharsGo (n + 1) n).length) '0' with
    | nil =>
      cases hd : hexCharsGo (n + 1) n with
      | nil => exact absurd hd hne
      | cons x xs => exact ⟨x, xs, by simp [hz, hd]⟩
    | cons z zs => exact ⟨z, zs ++ hexCharsGo (n + 1) n, by simp [hz]⟩
  rw [hcons]
  have hcdig : (hexDigitVal? c).isSome := hall c (by rw [hcons]; exact List.mem_cons_self c cs)
  have hcne : ¬ c = '-' := by
    intro hc; subst hc; exact absurd hcdig (by decide)
  have hcnp : ¬ c = '+' := by
    intro hc; subst hc; exact absurd hcdig (by decide)
  simp only [parseSigned, if_neg hcne, if_neg hcnp]
  have hstrip : stripHexMark (c :: cs) = c :: cs := by
    cases hcs : cs with
    | nil => rfl
    | cons b r =>
      have hbdig : (hexDigitVal? b).isSome := hall b (by
        rw [hcons, hcs]
        exact List.mem_cons_of_mem c (List.mem_cons_self b r))
      simp only [stripHexMark]
      rw [if_neg]
      intro hcond
      rcases hcond.2 with hb | hb
      · subst hb; exact absurd hbdig (by decide)
      · subst hb; exact absurd hbdig (by decide)
  rw [hstrip]
  obtain ⟨d, hd⟩ := Option.isSome_iff_exists.mp hcdig
  simp only [parseUnsignedHex, hd]
  have hval : parseHexAux (c :: cs) 0 = n := by
    rw [← hcons, padStart8_data,
      parseHexAux_append _ _ (fun x hx => by rw [List.eq_of_mem_replicate hx]; decide) 0,
      parseHexAux_zeros, hparse]
    ring
  rw [hval]
  rfl

lemma padStart8_length (n : Nat) (hn : n < 4294967296) :
    (padStart8 (jsHexString n)).length = 8 := by
  have hlen : (hexCharsGo (n + 1) n).length ≤ 8 := by
    have := hexCharsGo_length (n + 1) n 7 (by omega) (by norm_num; omega)
    omega
  show (List.replicate (8 - (hexCharsGo (n + 1) n).length) '0' ++ hexCharsGo (n + 1) n).length = 8
  rw [List.length_append, List.length_replicate]
  omega

lemma padStart8_digits (n : Nat) :
    ∀ c ∈ (padStart8 (jsHexString n)).data, (hexDigitVal? c).isSome := by
  obtain ⟨hne, hdig, _⟩ := hexCharsGo_spec (n + 1) n (by omega)
  rw [padStart8_data]
  intro c hc
  rcases List.mem_append.mp hc with hc | hc
  · rw [List.eq_of_mem_replicate hc]; decide
  · exact hdig c hc

/-- Claim C8: before streaming an `n`-byte payload the client sends
`download:XXXXXXXX` where `XXXXXXXX` is the zero-padded 8-hex-digit
value of `n` (it parses back to exactly `n`); it aborts before
`sendRawPayload` whenever the response to the download command carries
no `dataSize` or its reported length differs from `n`, and it only
streams when the reported length equals `n`. -/
theorem c8_download_negotiation :
    (∀ n : Nat, n < 4294967296 →
        downloadCommand n = "download:" ++ padStart8 (jsHexString n) ∧
        (padStart8 (jsHexString n)).length = 8 ∧
        (∀ c ∈ (padStart8 (jsHexString n)).data, (hexDigitVal? c).isSome) ∧
        jsParseInt16 (padStart8 (jsHexString n)) = some (n : Int)) ∧
    (∀ (n : Nat) (resp : Response), n < 4294967296 → resp.dataSize = none →
        downloadNegotiation n resp = DownloadOutcome.noDataSize) ∧
    (∀ (n : Nat) (resp : Response) (ds : String), n < 4294967296 →
        resp.dataSize = some ds → jsParseInt16 ds ≠ some (n : Int) →
        downloadNegotiation n resp = DownloadOutcome.mismatch) ∧
    (∀ (n : Nat) (resp : Response),
        downloadNegotiation n resp = DownloadOutcome.send →
        ∃ ds, resp.dataSize = some ds ∧ jsParseInt16 ds = some (n : Int)) := by
  refine ⟨?_, ?_, ?_, ?_⟩
  · intro n hn
    exact ⟨rfl, padStart8_length n hn, padStart8_digits n, parse_pad_hex n⟩
  · intro n resp hn hds
    simp only [downloadNegotiation]
    rw [if_neg (fun hq => hq (padStart8_length n hn)), hds]
  · intro n resp ds hn hds hne
    simp only [downloadNegotiation]
    rw [if_neg (fun hq => hq (padStart8_length n hn)), hds]
    show (match jsParseInt16 ds with
      | none => DownloadOutcome.mismatch
      | some size =>
        if size ≠ (n : Int) then DownloadOutcome.mismatch
        else DownloadOutcome.send) = DownloadOutcome.mismatch
    cases hp : jsParseInt16 ds with
    | none => rfl
    | some z =>
      have hz : z ≠ (n : Int) := fun h => hne (by rw [hp, h])
      show (if z ≠ (n : Int) then DownloadOutcome.mismatch
        else DownloadOutcome.send) = DownloadOutcome.mismatch
      rw [if_pos hz]
  · intro n resp h
    simp only [downloadNegotiation] at h
    by_cases h8 : (padStart8 (jsHexString n)).length ≠ 8
    · rw [if_pos h8] at h; cases h
    · rw [if_neg h8] at h
      cases hds : resp.dataSize with
      | none => rw [hds] at h; cases h
      | some ds =>
        rw [hds] at h
        replace h : (match jsParseInt16 ds with
          | none => DownloadOutcome.mismatch
          | some size =>
            if size ≠ (n : Int) then DownloadOutcome.mismatch
            else DownloadOutcome.send) = DownloadOutcome.send := h
        cases hp : jsParseInt16 ds with
        | none => rw [hp] at h; cases h
        | some z =>
          rw [hp] at h
          replace h : (if z ≠ (n : Int) then DownloadOutcome.mismatch
            else DownloadOutcome.send) = DownloadOutcome.send := h
          by_cases hz : z ≠ (n : Int)
          · rw [if_pos hz] at h; cases h
          · exact ⟨ds, rfl, by rw [hp, not_not.mp hz]⟩

/-- Witness for C8: for the 42-byte payload the padded hex size is the
8-digit string parsing back to 42; a response without `dataSize` aborts
with the unexpected-response error, and a response reporting `0x2b`
bytes aborts with the mismatch error. -/
theorem c8_download_negotiation_witness :
    (padStart8 (jsHexString 42)).length = 8 ∧
    jsParseInt16 (padStart8 (jsHexString 42)) = some (42 : Int) ∧
    downloadNegotiation 42 ⟨"", none⟩ = DownloadOutcome.noDataSize ∧
    downloadNegotiation 42 ⟨"", some "0000002b"⟩ = DownloadOutcome.mismatch :=
  ⟨(c8_download_negotiation.1 42 (by decide)).2.1,
   (c8_download_negotiation.1 42 (by decide)).2.2.2,
   c8_download_negotiation.2.1 42 ⟨"", none⟩ (by decide) rfl,
   c8_download_negotiation.2.2.1 42 ⟨"", some "0000002b"⟩ "0000002b"
     (by decide) rfl (by decide)⟩
